import Mathlib

/-!
Verification of the `project_track` repository scanner and dashboard
(`tracker/scanner.py` and `app.py`) against its design document.

The Python code is shallowly embedded: pure helper functions become Lean
functions over `String` / `List` / `Int` / `Nat`; the results of external
subprocess calls (git, find, rg/grep) are passed in as explicit inputs;
the module-level cache of `app.py` becomes explicit state passing; Python
exceptions become `Except` values.

Python `str` values are modelled by Lean `String`, with the Python string
operations (`in`, `.lower()`, `.strip()`, `.startswith`, slicing) defined
directly over the underlying character lists so that everything reduces.
-/

namespace ProjectTrack

/-! ## Python string primitives -/

/-- Substring test over character lists: `needle` occurs contiguously in the
list. Models Python's `needle in hay` for strings. -/
def listContainsSub (needle : List Char) : List Char → Bool
  | [] => needle.isEmpty
  | c :: t => needle.isPrefixOf (c :: t) || listContainsSub needle t

/-- Python `needle in hay` on strings. -/
def strContains (hay needle : String) : Bool :=
  listContainsSub needle.data hay.data

/-- Python `s.lower()` (character-wise lowercasing). -/
def pyLower (s : String) : String := ⟨s.data.map Char.toLower⟩

/-- Python `s.strip()`: remove leading and trailing whitespace. -/
def pyStrip (s : String) : String :=
  ⟨((s.data.dropWhile Char.isWhitespace).reverse.dropWhile Char.isWhitespace).reverse⟩

/-- Python `s.startswith(p)`. -/
def pyStartsWith (s p : String) : Bool := p.data.isPrefixOf s.data

/-- Python list slicing `l[:limit]` with an arbitrary (possibly negative)
integer bound: a nonnegative `limit` keeps the first `limit` elements, a
negative `limit` drops the last `-limit` elements. -/
def pySliceTo {α : Type} (l : List α) (limit : Int) : List α :=
  if 0 ≤ limit then l.take limit.toNat
  else l.take (l.length - (-limit).toNat)

/-- Python `s.split("\n")` over the character list (the scanner only ever
splits subprocess output whose lines are `\n`-separated). -/
def splitOnNl : List Char → List (List Char)
  | [] => [[]]
  | c :: t =>
    if c = '\n' then [] :: splitOnNl t
    else
      match splitOnNl t with
      | [] => [[c]]
      | h :: r => (c :: h) :: r

/-- Python `out.splitlines()` for `\n`-separated text, as `String`s. -/
def pySplitlines (s : String) : List String :=
  (splitOnNl s.data).map fun cs => ⟨cs⟩

/-! ## Configuration (`RepoConfig`, `load_config`)

`track_overrides` is a Python `dict[str, str]`; Python dicts preserve
insertion order, so it is embedded as an association list. -/

structure RepoConfig where
  owner : String
  scan_roots : List String
  include_repos : List String
  max_repo_depth : Int
  cache_ttl_seconds : Int
  exclude_paths : List String
  track_overrides : List (String × String)
deriving DecidableEq, Repr

/-! ## Track classifier (`classify_track`) -/

/-- The override test used by `classify_track`:
`path == prefix or path.startswith(prefix + "/")`. -/
def ovMatches (path p : String) : Bool :=
  path == p || pyStartsWith path (p ++ "/")

/-- The `for prefix, track in cfg.track_overrides.items()` loop of
`classify_track`: return the track of the first override entry whose key
matches, in dict insertion order. -/
def overrideLookup (path : String) : List (String × String) → Option String
  | [] => none
  | (p, t) :: rest => if ovMatches path p then some t else overrideLookup path rest

def finance_kw : List String :=
  ["finance", "stk", "trader", "poly", "trading", "quant", "moomoo", "webull"]

def engineering_kw : List String :=
  ["daytalk", "npu", "noc", "mec", "rtl", "arm", "chip", "soc"]

def soc_auto_kw : List String :=
  ["auto-design", "autodesign", "openlane", "eda", "chipgen", "autoflow"]

def family_kw : List String :=
  ["family", "home", "ella", "anna"]

/-- `classify_track(path, repo_name, cfg)` from `tracker/scanner.py`. -/
def classify_track (path repoName : String) (cfg : RepoConfig) : String :=
  match overrideLookup path cfg.track_overrides with
  | some t => t
  | none =>
    let key := pyLower (path ++ " " ++ repoName)
    if finance_kw.any (fun k => strContains key k) then "finance"
    else if engineering_kw.any (fun k => strContains key k) then "engineering"
    else if soc_auto_kw.any (fun k => strContains key k) then "soc_auto_design"
    else if family_kw.any (fun k => strContains key k) then "family"
    else "engineering"

/-- A configuration whose override mapping holds two prefixes that both
match the path `/a/b`, the shorter one listed first. -/
def c1cfg : RepoConfig :=
  { owner := "typhfeng"
    scan_roots := []
    include_repos := []
    max_repo_depth := 6
    cache_ttl_seconds := 120
    exclude_paths := []
    track_overrides := [("/a", "t1"), ("/a/b", "t2")] }

theorem overrideLookup_eq_find (path : String) (l : List (String × String)) :
    overrideLookup path l = (l.find? fun q => ovMatches path q.1).map Prod.snd := by
  induction l with
  | nil => rfl
  | cons hd tl ih =>
    obtain ⟨p, t⟩ := hd
    cases hm : ovMatches path p with
    | true => simp [overrideLookup, List.find?, hm]
    | false => simp [overrideLookup, List.find?, hm, ih]

/-- C1 counterexample: with overrides `{"/a": "t1", "/a/b": "t2"}` both
prefixes match the path `/a/b` and `/a/b` is the longer one, yet
`classify_track` returns `"t1"`, the track of the first (shorter) matching
prefix — not the track `"t2"` of the longest matching prefix. -/
theorem classify_track_not_longest_match :
    ovMatches "/a/b" "/a" = true ∧ ovMatches "/a/b" "/a/b" = true ∧
    "/a".length < "/a/b".length ∧
    classify_track "/a/b" "r" c1cfg = "t1" ∧ "t1" ≠ "t2" := by
  decide

/-- C1 (amended): when several override prefixes match a repository path,
`classify_track` returns the track of the first matching prefix in the
mapping's insertion order; and the boundary check makes the override prefix
`/foo` not match the path `/foobar`. -/
theorem classify_track_first_match (path name : String) (cfg : RepoConfig)
    (p : String × String)
    (h : cfg.track_overrides.find? (fun q => ovMatches path q.1) = some p) :
    classify_track path name cfg = p.2 ∧ ovMatches "/foobar" "/foo" = false := by
  refine ⟨?_, by decide⟩
  unfold classify_track
  rw [overrideLookup_eq_find, h]
  rfl

/-- C1 witness: the first-match theorem applied to the concrete
configuration `c1cfg` and path `/a/b`. -/
theorem classify_track_first_match_witness :
    classify_track "/a/b" "repo" c1cfg = "t1" ∧ ovMatches "/foobar" "/foo" = false :=
  classify_track_first_match "/a/b" "repo" c1cfg ("/a", "t1") (by decide)

/-! ## Progress scorer (`calc_progress`)

The scorer reads, from the per-repository metrics dict: the parsed
last-commit date (here pre-digested into `daysDelta`, the signed whole-day
difference `(now - last_date).days`, or `none` when
`parse_iso_date` fails), `commits["last_30d"]`, the two dirty-file counts
and `issues["total"]`. All Python ints are embedded as `Int` (the counts,
being lengths / git counts, enter as `Nat`). -/

structure ScoreInputs where
  daysDelta : Option Int
  commits30 : Nat
  dirtyModified : Nat
  dirtyUntracked : Nat
  issuesTotal : Nat
deriving DecidableEq, Repr

/-- `calc_progress(repo_metrics)` from `tracker/scanner.py`: the
`(score, stage)` pair. -/
def calc_progress (m : ScoreInputs) : Int × String :=
  match m.daysDelta with
  | none => (0, "Not Started")
  | some delta =>
    let days_since : Int := max delta 0
    let commits_30 : Int := m.commits30
    let dirty : Int := (m.dirtyModified : Int) + (m.dirtyUntracked : Int)
    let issues : Int := m.issuesTotal
    let recency_score := max 0 (30 - min days_since 30)
    let activity_score := min (commits_30 * 3) 35
    let hygiene_penalty := min (dirty * 2) 20
    let issue_penalty := min (issues / 30) 10
    let score := 20 + recency_score + activity_score - hygiene_penalty - issue_penalty
    let clamped := max 0 (min 100 score)
    let stage :=
      if commits_30 = 0 ∧ days_since > 90 then "Stalled"
      else if commits_30 ≥ 12 ∧ days_since ≤ 7 then "Accelerating"
      else if commits_30 ≥ 4 ∧ days_since ≤ 30 then "In Progress"
      else if days_since ≤ 60 then "Maintaining"
      else "At Risk"
    (clamped, stage)

/-- The score formula exactly as the design document states it:
`clamp(20 + max(0, 30 - min(days_since, 30)) + min(commits_30d * 3, 35)
- min(dirty * 2, 20) - min(issues // 30, 10), 0, 100)`. -/
def specScore (days_since commits30 dirty issues : Int) : Int :=
  max 0 (min 100
    (20 + max 0 (30 - min days_since 30) + min (commits30 * 3) 35
      - min (dirty * 2) 20 - min (issues / 30) 10))

/-- C2: for every repository with a parseable last-commit date the score
returned by `calc_progress` is the clamped formula of the design document
(with `days_since` the day difference floored at 0); and on the concrete
scenario — last commit 2 days ago, 15 commits in 30 days, no dirty files,
no issue hits — it returns score 83 and stage `"Accelerating"`. -/
theorem calc_progress_formula (m : ScoreInputs) (delta : Int)
    (h : m.daysDelta = some delta) :
    (calc_progress m).1 =
      specScore (max delta 0) (m.commits30 : Int)
        ((m.dirtyModified : Int) + (m.dirtyUntracked : Int)) (m.issuesTotal : Int) ∧
    calc_progress ⟨some 2, 15, 0, 0, 0⟩ = (83, "Accelerating") := by
  constructor
  · simp only [calc_progress, specScore, h]
  · decide

/-- C2 witness: the formula theorem applied to the scenario input itself. -/
theorem calc_progress_formula_witness :
    (calc_progress ⟨some 2, 15, 0, 0, 0⟩).1 = specScore (max 2 0) 15 (0 + 0) 0 ∧
    calc_progress ⟨some 2, 15, 0, 0, 0⟩ = (83, "Accelerating") :=
  calc_progress_formula ⟨some 2, 15, 0, 0, 0⟩ 2 rfl

/-- C3: holding the day difference, dirty counts and issue total fixed, the
score is monotonically non-decreasing in the 30-day commit count; holding
the other inputs fixed it is monotonically non-increasing in the dirty-file
count (modified + untracked) and in the issue total. -/
theorem calc_progress_monotone (delta : Int)
    (c c' dm du dm' du' i i' : Nat) :
    (c ≤ c' →
      (calc_progress ⟨some delta, c, dm, du, i⟩).1 ≤
        (calc_progress ⟨some delta, c', dm, du, i⟩).1) ∧
    (dm + du ≤ dm' + du' →
      (calc_progress ⟨some delta, c, dm', du', i⟩).1 ≤
        (calc_progress ⟨some delta, c, dm, du, i⟩).1) ∧
    (i ≤ i' →
      (calc_progress ⟨some delta, c, dm, du, i'⟩).1 ≤
        (calc_progress ⟨some delta, c, dm, du, i⟩).1) := by
  refine ⟨fun hc => ?_, fun hd => ?_, fun hi => ?_⟩ <;>
    simp only [calc_progress] <;> omega

/-- C3 witness: monotonicity applied at concrete inputs (2 days since last
commit; commit counts 3 ≤ 5, dirty counts summing 1 ≤ 4, issue totals
30 ≤ 90). -/
theorem calc_progress_monotone_witness :
    (calc_progress ⟨some 2, 3, 0, 1, 30⟩).1 ≤ (calc_progress ⟨some 2, 5, 0, 1, 30⟩).1 ∧
    (calc_progress ⟨some 2, 3, 1, 3, 30⟩).1 ≤ (calc_progress ⟨some 2, 3, 0, 1, 30⟩).1 ∧
    (calc_progress ⟨some 2, 3, 0, 1, 90⟩).1 ≤ (calc_progress ⟨some 2, 3, 0, 1, 30⟩).1 :=
  ⟨(calc_progress_monotone 2 3 5 0 1 0 1 30 30).1 (by decide),
   (calc_progress_monotone 2 3 3 0 1 1 3 30 30).2.1 (by decide),
   (calc_progress_monotone 2 3 3 0 1 0 1 30 90).2.2 (by decide)⟩

/-! ## Cache layer (`load_dashboard` in `app.py`)

The module globals `_cache_data` / `_cache_ts` become an explicit
`CacheState`. Time is embedded as `Int` seconds. The two reads of the
config file inside one call (`_get_cache_ttl()` and the one inside
`scan_repositories`) see the same document, so a single
`Except String RepoConfig` input stands for both: an error raised by
either read propagates to the caller before the globals are assigned. The
dashboard a successful rescan would build is passed in as `scanOut`; the
type of dashboards is a parameter `D`. -/

structure CacheState (D : Type) where
  data : Option D
  ts : Int
deriving DecidableEq, Repr

/-- `load_dashboard(force)` from `app.py`, returning the surfaced result
(`Except` models a propagated exception) together with the cache state
after the call. -/
def load_dashboard {D : Type} (force : Bool) (nowT : Int)
    (cfgR : Except String RepoConfig) (scanOut : D)
    (st : CacheState D) : Except String D × CacheState D :=
  match cfgR with
  | .error e => (.error e, st)
  | .ok cfg =>
    match st.data with
    | some d =>
      if force = false ∧ nowT - st.ts < cfg.cache_ttl_seconds then (.ok d, st)
      else (.ok scanOut, ⟨some scanOut, nowT⟩)
    | none => (.ok scanOut, ⟨some scanOut, nowT⟩)

theorem load_dashboard_hit {D : Type} (t : Int) (cfg : RepoConfig) (scanOut : D)
    (st : CacheState D) (d : D) (hd : st.data = some d)
    (h : t - st.ts < cfg.cache_ttl_seconds) :
    load_dashboard false t (.ok cfg) scanOut st = (.ok d, st) := by
  rcases st with ⟨data0, ts0⟩
  simp only at hd
  subst hd
  simp only at h
  simp [load_dashboard, h]

/-- C4: call `load_dashboard(force=false)` twice with readable
configuration; if at the second call the cached snapshot's age is below the
configured TTL, the second call returns exactly the dashboard the first
call returned and leaves the cache state unchanged — whatever a rescan
would have produced (`scanOut2` is arbitrary, so no rescan is observable). -/
theorem load_dashboard_cached_within_ttl {D : Type} (st0 : CacheState D)
    (t1 t2 : Int) (cfg1 cfg2 : RepoConfig) (scanOut1 scanOut2 : D)
    (h : t2 - (load_dashboard false t1 (.ok cfg1) scanOut1 st0).2.ts
          < cfg2.cache_ttl_seconds) :
    load_dashboard false t2 (.ok cfg2) scanOut2
        (load_dashboard false t1 (.ok cfg1) scanOut1 st0).2 =
      ((load_dashboard false t1 (.ok cfg1) scanOut1 st0).1,
       (load_dashboard false t1 (.ok cfg1) scanOut1 st0).2) := by
  obtain ⟨d, hfst, hdata⟩ : ∃ d, (load_dashboard false t1 (.ok cfg1) scanOut1 st0).1 = .ok d ∧
      (load_dashboard false t1 (.ok cfg1) scanOut1 st0).2.data = some d := by
    rcases st0 with ⟨data0, ts0⟩
    cases data0 with
    | none => exact ⟨scanOut1, rfl, rfl⟩
    | some d0 =>
      by_cases h1 : t1 - ts0 < cfg1.cache_ttl_seconds
      · refine ⟨d0, ?_, ?_⟩ <;> simp [load_dashboard, h1]
      · refine ⟨scanOut1, ?_, ?_⟩ <;> simp [load_dashboard, h1]
  rw [load_dashboard_hit t2 cfg2 scanOut2 _ d hdata h, hfst]

/-- C4 witness: with an empty initial cache, TTL 120 and a second call one
second after the first, the cached snapshot is served unchanged. -/
theorem load_dashboard_cached_within_ttl_witness :
    load_dashboard false 1 (.ok c1cfg) (37 : Nat)
        (load_dashboard false 0 (.ok c1cfg) 37 ⟨none, 0⟩).2 =
      ((load_dashboard false 0 (.ok c1cfg) 37 ⟨none, 0⟩).1,
       (load_dashboard false 0 (.ok c1cfg) 37 ⟨none, 0⟩).2) :=
  load_dashboard_cached_within_ttl ⟨none, 0⟩ 0 1 c1cfg c1cfg 37 37 (by decide)

/-- C8: when the configuration document is missing or unparseable (the
config read raises), `load_dashboard` surfaces that error to its caller
and the cache state — snapshot and timestamp — is exactly what it was
before the call. -/
theorem load_dashboard_config_error {D : Type} (force : Bool) (nowT : Int)
    (e : String) (scanOut : D) (st : CacheState D) :
    load_dashboard force nowT (.error e) scanOut st = (.error e, st) :=
  rfl

/-! ## Search over the evidence pool (`search_key_issues`) -/

/-- One record of the dashboard's `search_pool`. -/
structure PoolEntry where
  repo : String
  path : String
  track : String
  evType : String
  title : String
  content : String
deriving DecidableEq, Repr

/-- The haystack built per item:
`f"{repo} {title} {content} {track}".lower()`. -/
def entryHay (e : PoolEntry) : String :=
  pyLower (e.repo ++ " " ++ e.title ++ " " ++ e.content ++ " " ++ e.track)

/-- The `for item in pool` loop of `search_key_issues`: append matching
items, stopping as soon as `len(results) >= limit`. -/
def searchLoop (q : String) (limit : Int) : List PoolEntry → List PoolEntry → List PoolEntry
  | acc, [] => acc
  | acc, item :: rest =>
    let acc2 := if strContains (entryHay item) q then acc ++ [item] else acc
    if limit ≤ (acc2.length : Int) then acc2 else searchLoop q limit acc2 rest

/-- `search_key_issues(dashboard, query, limit)` from `tracker/scanner.py`
(the dashboard enters through its `search_pool` list). -/
def search_key_issues (pool : List PoolEntry) (query : String) (limit : Int) :
    List PoolEntry :=
  let q := pyLower (pyStrip query)
  if q = "" then pySliceTo pool limit
  else searchLoop q limit [] pool

theorem searchLoop_length_le (q : String) (limit : Int) :
    ∀ (pool acc : List PoolEntry), (acc.length : Int) < limit →
      ((searchLoop q limit acc pool).length : Int) ≤ limit
  | [], acc, h => le_of_lt h
  | item :: rest, acc, h => by
    simp only [searchLoop]
    by_cases hm : strContains (entryHay item) q = true <;>
      simp only [hm, if_true, if_false, Bool.false_eq_true] <;>
      split
    · simp only [List.length_append, List.length_cons, List.length_nil]
      omega
    · refine searchLoop_length_le q limit rest (acc ++ [item]) ?_
      simp only [List.length_append, List.length_cons, List.length_nil] at *
      omega
    · exact le_of_lt h
    · exact searchLoop_length_le q limit rest acc h

theorem searchLoop_sublist (q : String) (limit : Int) :
    ∀ (pool acc : List PoolEntry), ∃ s,
      searchLoop q limit acc pool = acc ++ s ∧
      s.Sublist (pool.filter fun e => strContains (entryHay e) q)
  | [], acc => ⟨[], by simp [searchLoop]⟩
  | item :: rest, acc => by
    simp only [searchLoop]
    by_cases hm : strContains (entryHay item) q = true
    · simp only [hm, if_true]
      split
      · refine ⟨[item], rfl, ?_⟩
        simp only [List.filter_cons, hm, if_true]
        exact List.Sublist.cons₂ item (List.nil_sublist _)
      · obtain ⟨s, hs, hsub⟩ := searchLoop_sublist q limit rest (acc ++ [item])
        refine ⟨item :: s, ?_, ?_⟩
        · rw [hs, List.append_assoc]
          rfl
        · simp only [List.filter_cons, hm, if_true]
          exact List.Sublist.cons₂ item hsub
    · simp only [hm, Bool.false_eq_true, if_false]
      split
      · refine ⟨[], by simp, List.nil_sublist _⟩
      · obtain ⟨s, hs, hsub⟩ := searchLoop_sublist q limit rest acc
        refine ⟨s, hs, ?_⟩
        simp only [List.filter_cons, hm, Bool.false_eq_true, if_false]
        exact hsub

theorem pyLower_eq_empty (s : String) : pyLower s = "" ↔ s = "" := by
  constructor
  · intro h
    rcases s with ⟨data⟩
    cases data with
    | nil => rfl
    | cons c t => simp [pyLower, String.ext_iff] at h
  · rintro rfl
    rfl

/-- C5 (amended): with `limit = N ≥ 1`, the empty query returns exactly
the first `N` pool entries (all of them when the pool is shorter) in pool
order; and for a query that is non-empty after stripping whitespace (the
`strip()` the code applies — a whitespace-only query instead takes the
empty-query path), the result has at most `N` entries, is a sublist of the
pool (pool order preserved), and every returned entry contains the
stripped, lowercased query in its lowercased `repo title content track`
haystack. -/
theorem search_key_issues_spec (pool : List PoolEntry) (query : String) (N : Int)
    (hN : 1 ≤ N) :
    search_key_issues pool "" N = pool.take N.toNat ∧
    (pyStrip query ≠ "" →
      ((search_key_issues pool query N).length : Int) ≤ N ∧
      (search_key_issues pool query N).Sublist pool ∧
      ∀ e ∈ search_key_issues pool query N,
        strContains (entryHay e) (pyLower (pyStrip query)) = true) := by
  constructor
  · show pySliceTo pool N = pool.take N.toNat
    unfold pySliceTo
    rw [if_pos (by omega)]
  · intro hq
    have hq2 : pyLower (pyStrip query) ≠ "" := fun h => hq ((pyLower_eq_empty _).1 h)
    have hrw : search_key_issues pool query N =
        searchLoop (pyLower (pyStrip query)) N [] pool := by
      unfold search_key_issues
      rw [if_neg hq2]
    obtain ⟨s, hs, hsub⟩ := searchLoop_sublist (pyLower (pyStrip query)) N pool []
    rw [List.nil_append] at hs
    refine ⟨?_, ?_, ?_⟩
    · rw [hrw]
      exact searchLoop_length_le _ N pool [] (by simpa using hN)
    · rw [hrw, hs]
      exact hsub.trans (List.filter_sublist pool)
    · intro e he
      rw [hrw, hs] at he
      exact (List.mem_filter.mp (hsub.mem he)).2

/-- C5 witness: the search theorem applied to a concrete two-entry pool,
query `"FIX"` and limit 1. -/
theorem search_key_issues_spec_witness :
    search_key_issues
        [⟨"repoA", "/p/a", "engineering", "code_issue", "a.py:3", "TODO tidy"⟩,
         ⟨"repoB", "/p/b", "finance", "commit_alert", "2024-01-02 abc", "fix crash"⟩]
        "" 1 =
      [⟨"repoA", "/p/a", "engineering", "code_issue", "a.py:3", "TODO tidy"⟩] ∧
    (pyStrip "FIX" ≠ "" →
      ((search_key_issues
          [⟨"repoA", "/p/a", "engineering", "code_issue", "a.py:3", "TODO tidy"⟩,
           ⟨"repoB", "/p/b", "finance", "commit_alert", "2024-01-02 abc", "fix crash"⟩]
          "FIX" 1).length : Int) ≤ 1 ∧
      (search_key_issues
          [⟨"repoA", "/p/a", "engineering", "code_issue", "a.py:3", "TODO tidy"⟩,
           ⟨"repoB", "/p/b", "finance", "commit_alert", "2024-01-02 abc", "fix crash"⟩]
          "FIX" 1).Sublist
        [⟨"repoA", "/p/a", "engineering", "code_issue", "a.py:3", "TODO tidy"⟩,
         ⟨"repoB", "/p/b", "finance", "commit_alert", "2024-01-02 abc", "fix crash"⟩] ∧
      ∀ e ∈ search_key_issues
          [⟨"repoA", "/p/a", "engineering", "code_issue", "a.py:3", "TODO tidy"⟩,
           ⟨"repoB", "/p/b", "finance", "commit_alert", "2024-01-02 abc", "fix crash"⟩]
          "FIX" 1,
        strContains (entryHay e) (pyLower (pyStrip "FIX")) = true) :=
  search_key_issues_spec _ "FIX" 1 (by decide)

/-- A concrete pool entry used in the `search_key_issues` edge-case
theorems. -/
def eA : PoolEntry :=
  ⟨"repoA", "/p/a", "engineering", "code_issue", "a.py:3", "TODO tidy"⟩

/-- A second concrete pool entry. -/
def eB : PoolEntry :=
  ⟨"repoB", "/p/b", "finance", "commit_alert", "2024-01-02 abc", "fix crash"⟩

/-- C5 counterexample: the query `"\t"` is non-empty, yet `strip()` turns
it into the empty string, so `search_key_issues` takes the empty-query
path and returns the first `limit` pool entries unfiltered — and `eA`'s
haystack does not contain the query (neither verbatim nor lowercased), so
the matching guarantee the claim makes for every non-empty query fails. -/
theorem search_nonempty_whitespace_counterexample :
    "\t" ≠ "" ∧
    search_key_issues [eA] "\t" 1 = [eA] ∧
    strContains (entryHay eA) "\t" = false ∧
    strContains (entryHay eA) (pyLower "\t") = false := by
  decide

/-- C10 counterexample: on a two-entry pool, the whitespace-only query
`" "` with `limit = -1` takes the empty-query path `pool[:limit]`, and the
Python slice with a negative bound returns everything but the last entry —
`[eA]` — not the first `limit` (i.e. zero) pool entries. -/
theorem search_whitespace_negative_limit_counterexample :
    search_key_issues [eA, eB] " " (-1) = [eA] ∧
    search_key_issues [eA, eB] " " (-1) ≠ [eA, eB].take ((-1 : Int)).toNat := by
  decide

/-- C10 (amended): on a non-empty pool, a query that is non-empty after
stripping together with `limit ≤ 0` makes the loop stop after examining
only the first pool entry, returning `[first]` if it matches (one entry,
exceeding the requested limit) and `[]` otherwise; a whitespace-only query
is treated exactly like the empty query, returning the Python slice
`pool[:limit]` (for `limit < 0` that is all entries but the last `-limit`,
not the first `limit` entries). -/
theorem search_limit_nonpos (e : PoolEntry) (rest pool : List PoolEntry)
    (q qws : String) (N : Int) (hq : pyStrip q ≠ "") (hN : N ≤ 0)
    (hws : pyStrip qws = "") :
    search_key_issues (e :: rest) q N =
      (if strContains (entryHay e) (pyLower (pyStrip q)) = true then [e] else []) ∧
    search_key_issues pool qws N = search_key_issues pool "" N ∧
    search_key_issues pool qws N = pySliceTo pool N := by
  have hq0 : pyLower (pyStrip qws) = "" := by rw [hws]; rfl
  refine ⟨?_, ?_, ?_⟩
  · have hq2 : pyLower (pyStrip q) ≠ "" := fun h => hq ((pyLower_eq_empty _).1 h)
    unfold search_key_issues
    rw [if_neg hq2]
    simp only [searchLoop]
    by_cases hm : strContains (entryHay e) (pyLower (pyStrip q)) = true
    · simp only [hm, if_true, List.nil_append]
      split
      · rfl
      · next hcon =>
          exact absurd (show N ≤ (([e] : List PoolEntry).length : Int) by
            simp only [List.length_cons, List.length_nil]; omega) hcon
    · simp only [hm, Bool.false_eq_true, if_false]
      split
      · rfl
      · next hcon =>
          exact absurd (show N ≤ (([] : List PoolEntry).length : Int) by
            simp only [List.length_nil]; omega) hcon
  · unfold search_key_issues
    rw [if_pos hq0]
    rfl
  · unfold search_key_issues
    rw [if_pos hq0]

/-- C10 witness: the amended theorem applied to the concrete pool
`[eA, eB]`, query `"todo"`, whitespace query `" "` and limit 0. -/
theorem search_limit_nonpos_witness :
    search_key_issues [eA, eB] "todo" 0 =
      (if strContains (entryHay eA) (pyLower (pyStrip "todo")) = true then [eA] else []) ∧
    search_key_issues [eA, eB] " " 0 = search_key_issues [eA, eB] "" 0 ∧
    search_key_issues [eA, eB] " " 0 = pySliceTo [eA, eB] 0 :=
  search_limit_nonpos eA [eB] [eA, eB] "todo" " " 0 (by decide) (by decide) (by decide)

/-! ## Weekly commit histogram (`weekly_commit_counts`)

Python dicts preserve insertion order, so `counts` is embedded as an
association list; `counts[week] = counts.get(week, 0) + 1` bumps in place
or appends. The git-side date formatting is abstracted: `fmt j` stands for
`(now - j*7 days).strftime("%G-W%V")` — the label of the week `j` steps
back from today — and `logOut` for the (already stripped) stdout of
`git log --since=... --pretty=format:%ad`. -/

def bumpCount : List (String × Nat) → String → List (String × Nat)
  | [], k => [(k, 1)]
  | (k2, v) :: rest, k =>
    if k2 = k then (k2, v + 1) :: rest else (k2, v) :: bumpCount rest k

/-- `weekly_commit_counts(repo, weeks)` from `tracker/scanner.py`. -/
def weekly_commit_counts (fmt : Nat → String) (logOut : String) (weeks : Nat) :
    List (String × Nat) :=
  if logOut = "" then []
  else
    let counts := (pySplitlines logOut).foldl
      (fun acc line =>
        let w := pyStrip line
        if w = "" then acc else bumpCount acc w) []
    let labels := (List.range weeks).map fmt
    counts.filter fun kv => labels.contains kv.1

/-- C6: whatever the raw log output holds, every key of the mapping
returned by `weekly_commit_counts` is one of the 12 most-recent calendar
week labels computed from today (`fmt 0`, stepping back 7 days at a time up
to `fmt 11`); older or boundary-adjacent week labels in the log are
filtered out. -/
theorem weekly_commit_counts_keys (fmt : Nat → String) (logOut : String)
    (k : String) (v : Nat)
    (h : (k, v) ∈ weekly_commit_counts fmt logOut 12) :
    k ∈ (List.range 12).map fmt := by
  unfold weekly_commit_counts at h
  split at h
  · simp at h
  · have h2 := (List.mem_filter.mp h).2
    simpa using h2

/-- C6 witness: the key theorem applied to a log holding one commit in the
current week. -/
theorem weekly_commit_counts_keys_witness :
    ("2024-W01", 1) ∈ weekly_commit_counts (fun _ => "2024-W01") "2024-W01" 12 ∧
    "2024-W01" ∈ (List.range 12).map (fun _ => "2024-W01") :=
  ⟨by decide,
   weekly_commit_counts_keys (fun _ => "2024-W01") "2024-W01" "2024-W01" 1 (by decide)⟩

/-! ## Final repository ordering (`scan_repositories`) and discovery order

`tracked.sort(key=lambda r: (score, commits_30d), reverse=True)` is
Python's stable sort, descending on the lexicographic pair. A stable sort
with respect to a total preorder has a unique result, so it is embedded as
`List.mergeSort` (stable) with the order "`a` may precede `b` iff
`key(b) <= key(a)` as Python tuples". Only the fields the sort touches are
kept in `RepoEntry`. -/

structure RepoEntry where
  name : String
  path : String
  track : String
  score : Int
  commits30 : Nat
deriving DecidableEq, Repr

/-- Python tuple comparison `x <= y` on `(score, commits)` pairs
(lexicographic). -/
def keyLeLex (x y : Int × Nat) : Bool :=
  decide (x.1 < y.1 ∨ (x.1 = y.1 ∧ x.2 ≤ y.2))

/-- The sort key `(r["progress"]["score"], r["commits"]["last_30d"])`. -/
def sortKey (r : RepoEntry) : Int × Nat := (r.score, r.commits30)

/-- The `tracked.sort(..., reverse=True)` step of `scan_repositories`. -/
def sortTracked (l : List RepoEntry) : List RepoEntry :=
  l.mergeSort fun a b => keyLeLex (sortKey b) (sortKey a)

/-- `discover_git_repos(cfg)`: `gitIncludes` are the `include_repos`
entries whose `.git` subdirectory exists, `findParents` the parents of the
`.git` directories printed by `find` over the scan roots. The Python `set`
union is a deduplication, `sorted()` fixes the deterministic discovery
order, and exclusion prefixes are dropped. -/
def discover_git_repos (gitIncludes findParents excludes : List String) :
    List String :=
  (((gitIncludes ++ findParents).dedup).mergeSort fun a b => decide (a ≤ b)).filter
    fun repo => !(excludes.any fun ex => pyStartsWith repo ex)

theorem keyLeLex_trans {x y z : Int × Nat} (h1 : keyLeLex x y = true)
    (h2 : keyLeLex y z = true) : keyLeLex x z = true := by
  obtain ⟨x1, x2⟩ := x
  obtain ⟨y1, y2⟩ := y
  obtain ⟨z1, z2⟩ := z
  simp only [keyLeLex, decide_eq_true_eq] at *
  omega

theorem keyLeLex_total (x y : Int × Nat) : keyLeLex x y || keyLeLex y x := by
  obtain ⟨x1, x2⟩ := x
  obtain ⟨y1, y2⟩ := y
  simp only [keyLeLex, Bool.or_eq_true, decide_eq_true_eq]
  omega

/-- C7: the sorted repos list is (a) pairwise descending in the
lexicographic `(score, 30-day commits)` key — in particular, of two
entries with equal score the one with more 30-day commits comes first —
(b) a permutation of the pre-sort list, (c) stable: entries with equal
keys keep their pre-sort relative order, and (d) the pre-sort processing
order itself comes from `discover_git_repos`, whose output is sorted by
discovery path. -/
theorem scan_repositories_sort_order (l : List RepoEntry)
    (gitIncludes findParents excludes : List String) :
    (sortTracked l).Pairwise
      (fun a b => keyLeLex (sortKey b) (sortKey a) = true) ∧
    (sortTracked l).Pairwise
      (fun a b => a.score = b.score → b.commits30 ≤ a.commits30) ∧
    (sortTracked l).Perm l ∧
    (∀ a b : RepoEntry, sortKey a = sortKey b →
      [a, b].Sublist l → [a, b].Sublist (sortTracked l)) ∧
    (discover_git_repos gitIncludes findParents excludes).Pairwise
      (fun a b => a ≤ b) := by
  have trans : ∀ a b c : RepoEntry,
      keyLeLex (sortKey b) (sortKey a) → keyLeLex (sortKey c) (sortKey b) →
      keyLeLex (sortKey c) (sortKey a) :=
    fun _ _ _ h1 h2 => keyLeLex_trans h2 h1
  have total : ∀ a b : RepoEntry,
      keyLeLex (sortKey b) (sortKey a) || keyLeLex (sortKey a) (sortKey b) :=
    fun a b => keyLeLex_total (sortKey b) (sortKey a)
  have hsorted := @List.sorted_mergeSort RepoEntry
    (fun a b => keyLeLex (sortKey b) (sortKey a)) trans total l
  refine ⟨hsorted, ?_, ?_, ?_, ?_⟩
  · refine hsorted.imp ?_
    intro a b hab hscore
    obtain ⟨a1, a2⟩ : Int × Nat := sortKey a
    simp only [keyLeLex, sortKey, decide_eq_true_eq] at hab
    omega
  · exact List.mergeSort_perm l _
  · intro a b hk hsub
    refine List.pair_sublist_mergeSort trans total ?_ hsub
    rw [hk]
    simp [keyLeLex]
  · have htrans : ∀ a b c : String, decide (a ≤ b) → decide (b ≤ c) → decide (a ≤ c) := by
      intro a b c h1 h2
      simp only [decide_eq_true_eq] at *
      exact le_trans h1 h2
    have htotal : ∀ a b : String, decide (a ≤ b) || decide (b ≤ a) := by
      intro a b
      simp only [Bool.or_eq_true, decide_eq_true_eq]
      exact le_total a b
    have hp := @List.sorted_mergeSort String (fun a b : String => decide (a ≤ b))
      htrans htotal ((gitIncludes ++ findParents).dedup)
    have hfil : (discover_git_repos gitIncludes findParents excludes).Pairwise
        (fun a b : String => decide (a ≤ b) = true) :=
      hp.sublist (List.filter_sublist _)
    exact hfil.imp fun h => of_decide_eq_true h

/-- C7 witness: stability applied to two concrete entries that tie on both
score and 30-day commits, inside the list that contains them in this
order. -/
theorem scan_repositories_sort_order_witness :
    [(⟨"x", "/x", "engineering", 83, 5⟩ : RepoEntry),
     (⟨"y", "/y", "finance", 83, 5⟩ : RepoEntry)].Sublist
      (sortTracked
        [⟨"x", "/x", "engineering", 83, 5⟩, ⟨"y", "/y", "finance", 83, 5⟩]) :=
  (scan_repositories_sort_order
      [⟨"x", "/x", "engineering", 83, 5⟩, ⟨"y", "/y", "finance", 83, 5⟩]
      [] [] []).2.2.2.1
    ⟨"x", "/x", "engineering", 83, 5⟩ ⟨"y", "/y", "finance", 83, 5⟩
    (by decide) (List.Sublist.refl _)

/-! ## External process invocations (`run_cmd` in `tracker/scanner.py`,
`_run_cmd` in `app.py`)

For the resource claim what matters per call site is which keyword
arguments the code hands to `subprocess.run`; they are embedded as a
descriptor. `tracker/scanner.py`'s `run_cmd` passes no `timeout` keyword
at all, while `app.py`'s `_run_cmd` always passes one (default 60
seconds, up to 120 at some call sites). -/

structure SubprocessRun where
  args : List String
  timeoutSeconds : Option Nat
deriving DecidableEq, Repr

/-- The invocation issued by `run_cmd` in `tracker/scanner.py`:
`subprocess.run(args, capture_output=True, text=True, check=False)` —
no `timeout` keyword, hence no bound on how long the call may block. -/
def run_cmd_invocation (args : List String) : SubprocessRun :=
  { args := args, timeoutSeconds := none }

/-- The invocation issued by `_run_cmd` in `app.py`:
`subprocess.run(args, ..., timeout=timeout, check=False)`. -/
def app_run_cmd_invocation (args : List String) (timeoutSeconds : Nat) :
    SubprocessRun :=
  { args := args, timeoutSeconds := some timeoutSeconds }

/-- `run_cmd`'s recovery path: a missing tool (`FileNotFoundError`) is
swallowed and yields `(127, "")`; a completed `subprocess.run` yields the
return code and stripped stdout. -/
def run_cmd_result (outcome : Option (Int × String)) : Int × String :=
  match outcome with
  | none => (127, "")
  | some r => r

/-- C9: the claim fails on the scanner. Every call made through the
scanner's `run_cmd` — here evaluated at a concrete git status invocation —
carries no timeout at all (`timeoutSeconds = none`), so a hanging
subprocess blocks the scan indefinitely; only the action layer's
`_run_cmd` passes a bounded timeout on every call. An absent tool is
recovered per-call as `(127, "")`. -/
theorem run_cmd_timeout_unbounded :
    (run_cmd_invocation ["git", "-C", "/repo", "status", "--porcelain"]).timeoutSeconds
        = none ∧
    (∀ args : List String, (run_cmd_invocation args).timeoutSeconds = none) ∧
    (∀ args t, (app_run_cmd_invocation args t).timeoutSeconds = some t) ∧
    run_cmd_result none = (127, "") :=
  ⟨rfl, fun _ => rfl, fun _ _ => rfl, rfl⟩

end ProjectTrack
